import Mathlib

/-!
Verification of the mycelo Cluster and LoadBot core (celo-blockchain).

Shallow embedding of `mycelo/cluster/cluster.go` and `mycelo/loadbot/bot.go`.
Node-process operations (`Node.Init`, `Node.EnodeURL`, `Node.SetStaticNodes`,
`Node.Run`) live in `node.go`, which is an external collaborator of the core:
they are embedded as abstract fallible operations (`NodeOps`), indexed by the
node's index, and `Cluster.Init` is instrumented with an explicit event trace
recording each call it performs, in order.

Errors are modelled as `String` (Go `error` values); `Except String α`
models a Go `(α, error)` return.
-/

set_option autoImplicit false

instance {ε α : Type} [DecidableEq ε] [DecidableEq α] : DecidableEq (Except ε α) :=
  fun x y =>
    match x, y with
    | .ok a, .ok b =>
      if h : a = b then .isTrue (by rw [h]) else .isFalse (by simp [h])
    | .ok _, .error _ => .isFalse (by simp)
    | .error _, .ok _ => .isFalse (by simp)
    | .error e, .error f =>
      if h : e = f then .isTrue (by rw [h]) else .isFalse (by simp [h])

namespace Celo

/-- An account from the environment (address and private signing key);
external input to the core (spec section 6). -/
structure Account where
  address : String
  privateKey : String
deriving DecidableEq, Repr

/-- Modelled from the spec: the environment/config provider (section 6)
supplies the ordered validator account list, per-node data directories and
the genesis descriptor path; `env.Environment` is not part of the core under
verification. -/
structure Environment where
  validatorAccounts : List Account
  validatorDatadir : Nat → String
  genesisPath : String
  chainID : Int

/-- NodeConfig, as passed to NewNode by Cluster.ensureNodes. -/
structure NodeConfig where
  gethPath : String
  number : Nat
  account : Account
  datadir : String
  chainID : Int

/-- A Node wraps its construction-time config (node.go internals are
external to the core). -/
structure Node where
  config : NodeConfig

/-- NewNode creates a node from its config. -/
def NewNode (cfg : NodeConfig) : Node := ⟨cfg⟩

/-- Cluster: environment, geth path, and the lazily built node list
(`nodes []*Node`, nil until first use — modelled as `Option`). -/
structure Cluster where
  env : Environment
  gethPath : String
  nodes : Option (List Node)

/-- New creates a new cluster instance (node list not yet built). -/
def New (env : Environment) (gethPath : String) : Cluster :=
  { env := env, gethPath := gethPath, nodes := none }

/-- Cluster.ensureNodes: build the node list from the validator accounts on
first access (when `nodes` is nil), reuse it afterwards.  Returns the list
and the (possibly updated) cluster. -/
def Cluster.ensureNodes (cl : Cluster) : List Node × Cluster :=
  match cl.nodes with
  | some ns => (ns, cl)
  | none =>
    let ns := cl.env.validatorAccounts.enum.map (fun p =>
      NewNode { gethPath := cl.gethPath
                number := p.1
                account := p.2
                datadir := cl.env.validatorDatadir p.1
                chainID := cl.env.chainID })
    (ns, { cl with nodes := some ns })

/-- Abstract node-process operations, indexed by node number.
`init i` is `node.Init(genesisPath)`, `enodeURL i` is `node.EnodeURL()`,
`setStaticNodes i urls` is `node.SetStaticNodes(urls...)`. -/
structure NodeOps where
  init : Nat → Except String Unit
  enodeURL : Nat → Except String String
  setStaticNodes : Nat → List String → Except String Unit

/-- One observable call performed by Cluster.Init, in program order. -/
inductive Event where
  | initNode : Nat → Event
  | fetchEnode : Nat → Event
  | pushPeers : Nat → List String → Event
deriving DecidableEq, Repr

/-- The node index an event touches. -/
def Event.nodeIdx : Event → Nat
  | .initNode i => i
  | .fetchEnode i => i
  | .pushPeers i _ => i

/-- First loop of Cluster.Init: for each node in index order, `geth init`
then fetch its enode URL; abort on the first error, collecting the URLs on
success.  The second component is the trace of calls performed. -/
def initNodesLoop (ops : NodeOps) : List Nat → Except String (List String) × List Event
  | [] => (.ok [], [])
  | i :: rest =>
    match ops.init i with
    | .error e => (.error e, [.initNode i])
    | .ok _ =>
      match ops.enodeURL i with
      | .error e => (.error e, [.initNode i, .fetchEnode i])
      | .ok url =>
        match initNodesLoop ops rest with
        | (.error e, evs) => (.error e, .initNode i :: .fetchEnode i :: evs)
        | (.ok urls, evs) => (.ok (url :: urls), .initNode i :: .fetchEnode i :: evs)

/-- The static-node list pushed to node `i`:
`append(append(urls, enodeUrls[:i]...), enodeUrls[i+1:]...)`. -/
def staticPeers (enodeUrls : List String) (i : Nat) : List String :=
  enodeUrls.take i ++ enodeUrls.drop (i + 1)

/-- Second loop of Cluster.Init: push to each node the URLs of all the other
nodes, aborting on the first error; with its trace. -/
def setStaticLoop (ops : NodeOps) (enodeUrls : List String) :
    List Nat → Except String Unit × List Event
  | [] => (.ok (), [])
  | i :: rest =>
    match ops.setStaticNodes i (staticPeers enodeUrls i) with
    | .error e => (.error e, [.pushPeers i (staticPeers enodeUrls i)])
    | .ok _ =>
      match setStaticLoop ops enodeUrls rest with
      | (r, evs) => (r, .pushPeers i (staticPeers enodeUrls i) :: evs)

/-- The URL a successful `enodeURL i` call returns (arbitrary when the call
fails); used to state what the collected URL list is on a successful run. -/
def enodeOf (ops : NodeOps) (i : Nat) : String :=
  match ops.enodeURL i with
  | .ok u => u
  | .error _ => ""

/-- The trace of a fully successful init/fetch loop over the given
indices. -/
def initTrace : List Nat → List Event
  | [] => []
  | i :: rest => .initNode i :: .fetchEnode i :: initTrace rest

/-- The trace of a fully successful peering loop over the given indices. -/
def pushTrace (urls : List String) : List Nat → List Event
  | [] => []
  | i :: rest => .pushPeers i (staticPeers urls i) :: pushTrace urls rest

/-- Cluster.Init over `n` nodes: run the init/fetch loop over indices
`0..n-1`; on success run the peering loop; return the result with the full
call trace. -/
def clusterInit (ops : NodeOps) (n : Nat) : Except String Unit × List Event :=
  match initNodesLoop ops (List.range n) with
  | (.error e, evs) => (.error e, evs)
  | (.ok urls, evs) =>
    match setStaticLoop ops urls (List.range n) with
    | (r, evs2) => (r, evs ++ evs2)

/-- Cluster.Init as a method: materialize the nodes via ensureNodes, then
run the init algorithm over them; returns the updated cluster as well. -/
def Cluster.Init (cl : Cluster) (ops : NodeOps) :
    (Except String Unit × List Event) × Cluster :=
  let p := cl.ensureNodes
  (clusterInit ops p.1.length, p.2)

/-- PrintNodeInfo's loop: fetch each node's enode URL in order, aborting on
the first error. -/
def printLoop (ops : NodeOps) : List Nat → Except String Unit
  | [] => .ok ()
  | i :: rest =>
    match ops.enodeURL i with
    | .error e => .error e
    | .ok _ => printLoop ops rest

/-- Cluster.PrintNodeInfo: iterate over ensureNodes, fetching each enode
URL; returns the updated cluster as well. -/
def Cluster.PrintNodeInfo (cl : Cluster) (ops : NodeOps) :
    Except String Unit × Cluster :=
  let p := cl.ensureNodes
  (printLoop ops (List.range p.1.length), p.2)

/-- Modelled from the spec: the structured concurrency group
(golang.org/x/sync/errgroup, an external collaborator).  A group tracks the
first non-nil error returned by any of its tasks and, having been created
with WithContext, cancels the shared context when that first error occurs
(spec sections 5 and 9: "a set of concurrent tasks sharing one cancellation
signal and one aggregated wait/error result", "wait() blocks for all,
returns first error", "an associated cancellable signal automatically
triggered on first error"). -/
structure GroupState where
  firstErr : Option String
  canceled : Bool
deriving DecidableEq, Repr

/-- Modelled from the spec: one task finishing with result `r` (`none` =
nil error).  The first non-nil result is recorded and triggers
cancellation; later results are discarded. -/
def groupStep (s : GroupState) (r : Option String) : GroupState :=
  match s.firstErr, r with
  | none, some e => { firstErr := some e, canceled := true }
  | _, _ => s

/-- Modelled from the spec: the group state after all tasks finished, given
their results in completion order. -/
def groupRun (results : List (Option String)) : GroupState :=
  results.foldl groupStep { firstErr := none, canceled := false }

/-- Modelled from the spec: group.Wait() — nil iff every task returned nil,
otherwise the first non-nil error in completion order. -/
def groupWait (results : List (Option String)) : Option String :=
  (groupRun results).firstErr

/-- Cluster.Run: start every node under one errgroup and wait.  `results`
are the per-node run outcomes in completion order; returns group.Wait()'s
result and the updated cluster (nodes touched only through ensureNodes). -/
def Cluster.Run (cl : Cluster) (results : List (Option String)) :
    Option String × Cluster :=
  let p := cl.ensureNodes
  (groupWait results, p.2)

end Celo

namespace LoadBot

/-- The hard cap on the number of RPC clients (`const clientCap = 100`). -/
def clientCap : Int := 100

/-- The capped client count: `if clientCount > clientCap { clientCount =
clientCap }`. -/
def cappedClientCount (clientCount : Int) : Int :=
  if clientCount > clientCap then clientCap else clientCount

/-- Pool-construction loop from start index `i` for `k` more clients: call
the client factory for each slot, aborting on its first error; on success
the pool is the list of slot indices (clients themselves are opaque). -/
def buildClientsAux (factory : Nat → Except String Unit) :
    Nat → Nat → Except String (List Nat)
  | _, 0 => .ok []
  | i, k + 1 =>
    match factory i with
    | .error e => .error e
    | .ok _ =>
      match buildClientsAux factory (i + 1) k with
      | .error e => .error e
      | .ok rest => .ok (i :: rest)

/-- The client-pool construction loop of Start (`for i := 0; i <
clientCount; i++ { client, err := cfg.ClientFactory(); ... }`). -/
def buildClients (factory : Nat → Except String Unit) (count : Nat) :
    Except String (List Nat) :=
  buildClientsAux factory 0 count

/-- Go integer division of `A*1000` by TPS, `len(cfg.Accounts)*1000 /
cfg.TransactionsPerSecond` (Go `/` on int truncates toward zero, as does
`Int.tdiv`). -/
def delayBase (accounts : Nat) (tps : Int) : Int :=
  Int.tdiv ((accounts : Int) * 1000) tps

/-- The damping step `int(float64(x) * 0.95)`.  0.95's nearest float64 is
0.95·(1 − δ) with δ < 2⁻⁵⁴; for every |x| < 2⁴⁶ the rounded product
float64(x)*0.95 truncates to exactly ⌊19·x/20⌋ toward zero (the rounding
error is far below the distance to the next integer, and when 19·x/20 is
exact the product rounds to it since the error is under half an ulp), so
the step is embedded as exact integer arithmetic. -/
def fudge (x : Int) : Int :=
  Int.tdiv (19 * x) 20

/-- The per-account delay in milliseconds:
`int(float64(len(cfg.Accounts)*1000/cfg.TransactionsPerSecond)*0.95)`. -/
def delayMillis (accounts : Nat) (tps : Int) : Int :=
  fudge (delayBase accounts tps)

/-- The per-account delay as a `time.Duration` (nanoseconds): `delay :=
time.Duration(...) * time.Millisecond`. -/
def delayNs (accounts : Nat) (tps : Int) : Int :=
  delayMillis accounts tps * 1000000

/-- The worker-launch stagger `startDelay := delay /
time.Duration(len(cfg.Accounts))` in nanoseconds (Go Duration division is
int64 division, truncating toward zero). -/
def startDelayNs (accounts : Nat) (tps : Int) : Int :=
  Int.tdiv (delayNs accounts tps) (accounts : Int)

/-- waitFor(ctx, d): returns ctx.Err() when the context is done first
(`ctxErr = some e`), nil otherwise.  `d` is the requested duration;
time.After fires immediately for any d ≤ 0, so no duration panics. -/
def waitFor (ctxErr : Option String) (_d : Int) : Except String Unit :=
  match ctxErr with
  | some e => .error e
  | none => .ok ()

/-- The external world of one Start call: the i-th client-factory call's
result and the context state observed by the i-th launch waitFor. -/
structure BotWorld where
  clientFactory : Nat → Except String Unit
  launchCtx : Nat → Option String

/-- Outcome of the worker-launch loop of Start. -/
inductive LaunchResult where
  | modZero : LaunchResult
  | err : String → LaunchResult
  | launched : List Int → LaunchResult
deriving DecidableEq, Repr

/-- The worker-launch loop from account index `i` for `k` more accounts:
look up `clients[i%clientCount]` (a Go modulo — panics when the pool size
is 0, modelled as `.modZero`), wait one stagger interval (aborting on
context error), and record the assigned client index. -/
def launchLoop (w : BotWorld) (clientCount : Int) (stagger : Int) :
    Nat → Nat → LaunchResult
  | _, 0 => .launched []
  | i, k + 1 =>
    if clientCount = 0 then .modZero
    else
      let client := Int.tmod (i : Int) clientCount
      match waitFor (w.launchCtx i) stagger with
      | .error e => .err e
      | .ok _ =>
        match launchLoop w clientCount stagger (i + 1) k with
        | .modZero => .modZero
        | .err e => .err e
        | .launched rest => .launched (client :: rest)

/-- Outcome of the sequential prefix of Start (everything before
group.Wait()). -/
inductive StartResult where
  | panicMakeSlice : StartResult
  | panicDivZero : StartResult
  | panicModZero : StartResult
  | err : String → StartResult
  | launched : Int → Int → List Int → StartResult
deriving DecidableEq, Repr

/-- The sequential prefix of loadbot.Start, in program order: cap the
client count (`make` panics on a negative capacity), build the client pool
(returning the first factory error), compute the pacing delay (integer
division by zero when TPS = 0 — panic), compute the launch stagger
(division by zero when the account set is empty — panic), then run the
launch loop (modulo by zero at `clients[i%clientCount]` when the pool size
is 0 and at least one account exists — panic).  On success it reports the
delay, the stagger and the per-account client assignment. -/
def Start (accounts : Nat) (tps : Int) (clientCount : Int) (w : BotWorld) :
    StartResult :=
  let cc := cappedClientCount clientCount
  if cc < 0 then .panicMakeSlice
  else
    match buildClients w.clientFactory cc.toNat with
    | .error e => .err e
    | .ok _ =>
      if tps = 0 then .panicDivZero
      else
        let d := delayNs accounts tps
        if accounts = 0 then .panicDivZero
        else
          let sd := Int.tdiv d (accounts : Int)
          match launchLoop w cc sd 0 accounts with
          | .modZero => .panicModZero
          | .err e => .err e
          | .launched asg => .launched d sd asg

/-- The scheduled time of the next send: `nextSendTime :=
txSentTime.Add(sleepTime)` (times in nanoseconds). -/
def nextSendTime (txSentTime sleepTime : Int) : Int :=
  txSentTime + sleepTime

/-- time.Until(target) at current time `now`: `target - now`. -/
def timeUntil (now target : Int) : Int :=
  target - now

/-- The extra time waitFor actually sleeps for a requested duration `d`:
time.After fires immediately for d ≤ 0, so the effective sleep is
max d 0 — never negative and never a panic. -/
def effectiveSleep (d : Int) : Int :=
  max d 0

/-- The external world of one runBot worker, per loop iteration `i`:
the submission result, the confirmation (WaitMined) result, the recorded
send time `txSentTime`, the clock read by `time.Now().After(...)`, the
clock read inside `time.Until(...)`, and the context state observed by the
pacing waitFor. -/
structure RunWorld where
  sendRes : Nat → Except String Unit
  mineRes : Nat → Except String Unit
  sentTime : Nat → Int
  checkNow : Nat → Int
  untilNow : Nat → Int
  paceCtx : Nat → Option String

/-- The runBot worker loop, iteration `iter` with `fuel` iterations of
budget (`none` = the loop is still running when the budget runs out; the
Go loop has no normal exit).  Each iteration: submit (a failure returns the
wrapped send error), wait for mining (a failure returns the wrapped
confirmation error), then pace: if `time.Now()` is already past
`txSentTime + sleepTime`, continue immediately with no sleep; otherwise
waitFor until the scheduled time, returning the context error if cancelled
first. -/
def runBot (w : RunWorld) (sleepTime : Int) :
    Nat → Nat → Option (Except String Unit)
  | 0, _ => none
  | fuel + 1, iter =>
    match w.sendRes iter with
    | .error e => some (.error (String.append "Error sending transaction: " e))
    | .ok _ =>
      match w.mineRes iter with
      | .error e => some (.error (String.append "Error waitin for tx: " e))
      | .ok _ =>
        if w.checkNow iter > nextSendTime (w.sentTime iter) sleepTime then
          runBot w sleepTime fuel (iter + 1)
        else
          match waitFor (w.paceCtx iter)
              (timeUntil (w.untilNow iter)
                (nextSendTime (w.sentTime iter) sleepTime)) with
          | .error e => some (.error e)
          | .ok _ => runBot w sleepTime fuel (iter + 1)

end LoadBot

namespace Witness

/-- Concrete node operations: everything succeeds, two distinct URLs. -/
def opsW : Celo.NodeOps :=
  { init := fun _ => .ok ()
    enodeURL := fun i => if i = 0 then .ok "a" else .ok "b"
    setStaticNodes := fun _ _ => .ok () }

/-- Concrete node operations: node 1's bootstrap fails. -/
def opsF : Celo.NodeOps :=
  { init := fun i => if i = 1 then .error "boom" else .ok ()
    enodeURL := fun _ => .ok "u"
    setStaticNodes := fun _ _ => .ok () }

/-- Concrete node operations: node 1's peer push fails. -/
def opsP : Celo.NodeOps :=
  { init := fun _ => .ok ()
    enodeURL := fun i => if i = 0 then .ok "a" else .ok "b"
    setStaticNodes := fun i _ => if i = 1 then .error "peering down" else .ok () }

/-- A concrete two-validator environment. -/
def envW : Celo.Environment :=
  { validatorAccounts := [{ address := "addr0", privateKey := "k0" },
                          { address := "addr1", privateKey := "k1" }]
    validatorDatadir := fun _ => "datadir"
    genesisPath := "genesis.json"
    chainID := 1 }

/-- A freshly constructed cluster over `envW`. -/
def clusterW : Celo.Cluster := Celo.New envW "geth"

/-- `clusterW` after its node list has been materialized once. -/
def clusterWBuilt : Celo.Cluster := (clusterW.ensureNodes).2

/-- A loadbot world whose factory always succeeds and whose context is
never cancelled during launch. -/
def botW : LoadBot.BotWorld :=
  { clientFactory := fun _ => .ok (), launchCtx := fun _ => none }

/-- A loadbot world whose client factory fails on every call. -/
def badFactoryW : LoadBot.BotWorld :=
  { clientFactory := fun _ => .error "dial failed", launchCtx := fun _ => none }

/-- A worker world where sends and confirmations succeed and confirmation
latency has already exceeded the budget (checkNow past the schedule). -/
def runW : LoadBot.RunWorld :=
  { sendRes := fun _ => .ok ()
    mineRes := fun _ => .ok ()
    sentTime := fun _ => 0
    checkNow := fun _ => 100
    untilNow := fun _ => 100
    paceCtx := fun _ => none }

/-- A worker world whose first submission fails with the cancellation
error. -/
def runWCancel : LoadBot.RunWorld :=
  { sendRes := fun _ => .error "context canceled"
    mineRes := fun _ => .ok ()
    sentTime := fun _ => 0
    checkNow := fun _ => 0
    untilNow := fun _ => 0
    paceCtx := fun _ => none }

end Witness

/-! ## Helper lemmas about the structured-concurrency group -/

theorem foldl_groupStep_err (l : List (Option String)) (e : String) (c : Bool) :
    l.foldl Celo.groupStep { firstErr := some e, canceled := c } =
      { firstErr := some e, canceled := c } := by
  induction l with
  | nil => rfl
  | cons r rest ih => cases r <;> simpa [Celo.groupStep] using ih

theorem foldl_groupStep_none (l : List (Option String)) (h : ∀ x ∈ l, x = none) :
    l.foldl Celo.groupStep { firstErr := none, canceled := false } =
      { firstErr := none, canceled := false } := by
  induction l with
  | nil => rfl
  | cons r rest ih =>
    have hr : r = none := h r (List.mem_cons_self r rest)
    subst hr
    exact ih (fun x hx => h x (List.mem_cons_of_mem none hx))

theorem foldl_groupStep_firstErr_none (l : List (Option String)) (s : Celo.GroupState) :
    (l.foldl Celo.groupStep s).firstErr = none ↔
      s.firstErr = none ∧ ∀ x ∈ l, x = none := by
  induction l generalizing s with
  | nil => simp
  | cons r rest ih =>
    obtain ⟨f, c⟩ := s
    cases f with
    | none =>
      cases r with
      | none => simp [List.foldl_cons, Celo.groupStep, ih]
      | some e =>
        simp [List.foldl_cons, Celo.groupStep, foldl_groupStep_err]
    | some e =>
      simp [List.foldl_cons, Celo.groupStep, foldl_groupStep_err]

/-! ## C4 -/

/-- C4: during Cluster.Run, if node m's run returns an error `e` while
every node that completed earlier returned nil, then the shared
cancellation signal is triggered (the group is canceled, so all other
still-running nodes are cancelled) and Run returns `e` — the first error
in completion order, not a later one.  `pre ++ some e :: post` is the list
of node-run results in completion order. -/
theorem cluster_run_returns_first_error (cl : Celo.Cluster)
    (pre post : List (Option String)) (e : String)
    (hpre : ∀ x ∈ pre, x = none) :
    (cl.Run (pre ++ some e :: post)).1 = some e ∧
    (Celo.groupRun (pre ++ some e :: post)).canceled = true := by
  have hsplit : Celo.groupRun (pre ++ some e :: post) =
      { firstErr := some e, canceled := true } := by
    unfold Celo.groupRun
    rw [List.foldl_append, foldl_groupStep_none pre hpre, List.foldl_cons]
    exact foldl_groupStep_err post e true
  constructor
  · simp [Celo.Cluster.Run, Celo.groupWait, hsplit]
  · rw [hsplit]

/-- Witness for C4 at a concrete cluster and completion order. -/
theorem cluster_run_returns_first_error_witness :
    (Witness.clusterW.Run ([none] ++ some "node crashed" :: [some "later"])).1 =
      some "node crashed" ∧
    (Celo.groupRun ([none] ++ some "node crashed" :: [some "later"])).canceled = true :=
  cluster_run_returns_first_error Witness.clusterW [none] [some "later"]
    "node crashed" (by intro x hx; simpa using hx)

/-! ## C5 -/

/-- C5: Start's wait returns nil only if every worker returned nil; a
runBot worker never terminates with nil (every exit path — submission
failure, confirmation failure, or cancellation observed by the pacing
waitFor — returns a non-nil error, so a cancelled worker surfaces a
non-nil error); and when every worker returns the cancellation error `e`,
the top-level wait returns `e`, not nil. -/
theorem loadbot_start_error_propagation :
    (∀ rs : List (Option String), Celo.groupWait rs = none → ∀ r ∈ rs, r = none) ∧
    (∀ (w : LoadBot.RunWorld) (d : Int) (fuel iter : Nat) (r : Except String Unit),
        LoadBot.runBot w d fuel iter = some r → ∃ e, r = .error e) ∧
    (∀ (rs : List (Option String)) (e : String), rs ≠ [] →
        (∀ r ∈ rs, r = some e) → Celo.groupWait rs = some e) := by
  refine ⟨?_, ?_, ?_⟩
  · intro rs h
    exact ((foldl_groupStep_firstErr_none rs _).mp h).2
  · intro w d fuel
    induction fuel with
    | zero => intro iter r h; simp [LoadBot.runBot] at h
    | succ n ih =>
      intro iter r h
      unfold LoadBot.runBot at h
      cases hs : w.sendRes iter with
      | error e =>
        rw [hs] at h
        simp only [Option.some.injEq] at h
        exact ⟨_, h.symm⟩
      | ok u =>
        rw [hs] at h
        cases hm : w.mineRes iter with
        | error e =>
          rw [hm] at h
          simp only [Option.some.injEq] at h
          exact ⟨_, h.symm⟩
        | ok v =>
          rw [hm] at h
          by_cases hc : w.checkNow iter >
              LoadBot.nextSendTime (w.sentTime iter) d
          · rw [if_pos hc] at h
            exact ih (iter + 1) r h
          · rw [if_neg hc] at h
            cases hp : w.paceCtx iter with
            | some e =>
              rw [hp] at h
              simp only [LoadBot.waitFor, Option.some.injEq] at h
              exact ⟨_, h.symm⟩
            | none =>
              rw [hp] at h
              simp only [LoadBot.waitFor] at h
              exact ih (iter + 1) r h
  · intro rs e hne hall
    cases rs with
    | nil => exact absurd rfl hne
    | cons r rest =>
      have hr : r = some e := hall r (List.mem_cons_self r rest)
      subst hr
      unfold Celo.groupWait Celo.groupRun
      rw [List.foldl_cons]
      rw [show Celo.groupStep { firstErr := none, canceled := false } (some e) =
            { firstErr := some e, canceled := true } from rfl]
      rw [foldl_groupStep_err rest e true]

/-- Witness for C5: a nil wait over a single nil result, a worker that
terminated under cancellation with a non-nil error, and a wait over
cancellation errors returning the cancellation error. -/
theorem loadbot_start_error_propagation_witness :
    (∀ r ∈ ([none] : List (Option String)), r = none) ∧
    (∃ e, (Except.error "Error sending transaction: context canceled" :
        Except String Unit) = .error e) ∧
    Celo.groupWait [some "context canceled"] = some "context canceled" :=
  ⟨loadbot_start_error_propagation.1 [none] rfl,
   loadbot_start_error_propagation.2.1 Witness.runWCancel 0 1 0 _ rfl,
   loadbot_start_error_propagation.2.2 [some "context canceled"]
     "context canceled" (by simp) (by simp)⟩

/-! ## C9 -/

/-- C9: the Cluster's node list is built exactly once, from the
environment's validator account list, on first access via ensureNodes: a
new cluster has no list; after first materialization its length equals the
number of validator accounts; a later access returns the same list and the
same cluster unchanged; and Init, Run and PrintNodeInfo all leave the
cluster in exactly the once-materialized state. -/
theorem cluster_nodes_memoized :
    (∀ (env : Celo.Environment) (g : String),
        (Celo.New env g).nodes = none ∧
        ((Celo.New env g).ensureNodes).1.length = env.validatorAccounts.length) ∧
    (∀ cl : Celo.Cluster, (cl.ensureNodes).2.nodes = some (cl.ensureNodes).1) ∧
    (∀ cl : Celo.Cluster,
        (cl.ensureNodes).2.ensureNodes = ((cl.ensureNodes).1, (cl.ensureNodes).2)) ∧
    (∀ (cl : Celo.Cluster) (ns : List Celo.Node), cl.nodes = some ns →
        cl.ensureNodes = (ns, cl)) ∧
    (∀ (cl : Celo.Cluster) (ops : Celo.NodeOps),
        (cl.Init ops).2 = (cl.ensureNodes).2) ∧
    (∀ (cl : Celo.Cluster) (rs : List (Option String)),
        (cl.Run rs).2 = (cl.ensureNodes).2) ∧
    (∀ (cl : Celo.Cluster) (ops : Celo.NodeOps),
        (cl.PrintNodeInfo ops).2 = (cl.ensureNodes).2) := by
  refine ⟨?_, ?_, ?_, ?_, ?_, ?_, ?_⟩
  · intro env g
    refine ⟨rfl, ?_⟩
    simp [Celo.New, Celo.Cluster.ensureNodes]
  · intro cl
    cases h : cl.nodes <;> simp [Celo.Cluster.ensureNodes, h]
  · intro cl
    cases h : cl.nodes <;> simp [Celo.Cluster.ensureNodes, h]
  · intro cl ns h
    simp [Celo.Cluster.ensureNodes, h]
  · intro cl ops
    rfl
  · intro cl rs
    rfl
  · intro cl ops
    rfl

/-- Witness for C9 at a concrete environment and an already-materialized
cluster. -/
theorem cluster_nodes_memoized_witness :
    Witness.clusterWBuilt.ensureNodes =
      ((Witness.clusterW.ensureNodes).1, Witness.clusterWBuilt) :=
  cluster_nodes_memoized.2.2.2.1 Witness.clusterWBuilt
    (Witness.clusterW.ensureNodes).1 rfl

/-! ## Helper lemmas about Cluster.Init's two loops -/

theorem range_decomp (k n : Nat) (h : k < n) :
    ∃ rest : List Nat, List.range n = List.range k ++ k :: rest := by
  induction n with
  | zero => omega
  | succ m ih =>
    rcases Nat.lt_succ_iff_lt_or_eq.mp h with h1 | h1
    · obtain ⟨rest, hr⟩ := ih h1
      exact ⟨rest ++ [m], by rw [List.range_succ, hr]; simp⟩
    · subst h1
      exact ⟨[], by rw [List.range_succ]⟩

theorem initNodesLoop_init_fails (ops : Celo.NodeOps) (k : Nat) (e : String)
    (hk : ops.init k = .error e) :
    ∀ (idxs rest : List Nat),
      (∀ i ∈ idxs, ops.init i = .ok () ∧ ∃ u, ops.enodeURL i = .ok u) →
      Celo.initNodesLoop ops (idxs ++ k :: rest) =
        (.error e, Celo.initTrace idxs ++ [.initNode k]) := by
  intro idxs
  induction idxs with
  | nil =>
    intro rest _
    simp only [List.nil_append]
    unfold Celo.initNodesLoop
    rw [hk]
    rfl
  | cons i tl ih =>
    intro rest h
    obtain ⟨hi, u, hu⟩ := h i (List.mem_cons_self i tl)
    simp only [List.cons_append]
    unfold Celo.initNodesLoop
    rw [hi, hu, ih rest (fun j hj => h j (List.mem_cons_of_mem i hj))]
    simp [Celo.initTrace]

theorem initNodesLoop_enode_fails (ops : Celo.NodeOps) (k : Nat) (e : String)
    (hk1 : ops.init k = .ok ()) (hk2 : ops.enodeURL k = .error e) :
    ∀ (idxs rest : List Nat),
      (∀ i ∈ idxs, ops.init i = .ok () ∧ ∃ u, ops.enodeURL i = .ok u) →
      Celo.initNodesLoop ops (idxs ++ k :: rest) =
        (.error e, Celo.initTrace idxs ++ [.initNode k, .fetchEnode k]) := by
  intro idxs
  induction idxs with
  | nil =>
    intro rest _
    simp only [List.nil_append]
    unfold Celo.initNodesLoop
    rw [hk1, hk2]
    rfl
  | cons i tl ih =>
    intro rest h
    obtain ⟨hi, u, hu⟩ := h i (List.mem_cons_self i tl)
    simp only [List.cons_append]
    unfold Celo.initNodesLoop
    rw [hi, hu, ih rest (fun j hj => h j (List.mem_cons_of_mem i hj))]
    simp [Celo.initTrace]

theorem initNodesLoop_ok_inv (ops : Celo.NodeOps) :
    ∀ (idxs : List Nat) (urls : List String) (evs : List Celo.Event),
      Celo.initNodesLoop ops idxs = (.ok urls, evs) →
      urls = idxs.map (Celo.enodeOf ops) ∧ evs = Celo.initTrace idxs ∧
      ∀ i ∈ idxs, ops.init i = .ok () ∧
        ops.enodeURL i = .ok (Celo.enodeOf ops i) := by
  intro idxs
  induction idxs with
  | nil =>
    intro urls evs h
    simp only [Celo.initNodesLoop, Prod.mk.injEq, Except.ok.injEq] at h
    obtain ⟨h1, h2⟩ := h
    simp [← h1, ← h2, Celo.initTrace]
  | cons i tl ih =>
    intro urls evs h
    unfold Celo.initNodesLoop at h
    cases h1 : ops.init i with
    | error e => rw [h1] at h; simp at h
    | ok u0 =>
      rw [h1] at h
      cases h2 : ops.enodeURL i with
      | error e => rw [h2] at h; simp at h
      | ok u =>
        rw [h2] at h
        rcases h3 : Celo.initNodesLoop ops tl with ⟨r1, evs1⟩
        rw [h3] at h
        cases r1 with
        | error e => simp at h
        | ok urls1 =>
          simp only [Prod.mk.injEq, Except.ok.injEq] at h
          obtain ⟨h4, h5⟩ := h
          obtain ⟨hu1, he1, hcalls⟩ := ih urls1 evs1 h3
          have he : Celo.enodeOf ops i = u := by
            unfold Celo.enodeOf
            rw [h2]
          refine ⟨?_, ?_, ?_⟩
          · rw [← h4, hu1, List.map_cons, he]
          · rw [← h5, he1, Celo.initTrace]
          · intro j hj
            rcases List.mem_cons.mp hj with hj1 | hj1
            · subst hj1
              rw [he]
              exact ⟨h1, h2⟩
            · exact hcalls j hj1

theorem pushPeers_not_mem_initTrace :
    ∀ (idxs : List Nat) (i : Nat) (l : List String),
      Celo.Event.pushPeers i l ∉ Celo.initTrace idxs := by
  intro idxs
  induction idxs with
  | nil => intro i l h; simp [Celo.initTrace] at h
  | cons j tl ih =>
    intro i l h
    simp only [Celo.initTrace, List.mem_cons] at h
    rcases h with h | h | h
    · cases h
    · cases h
    · exact ih i l h

theorem pushPeers_not_mem_initNodesLoop (ops : Celo.NodeOps) :
    ∀ (idxs : List Nat) (i : Nat) (l : List String),
      Celo.Event.pushPeers i l ∉ (Celo.initNodesLoop ops idxs).2 := by
  intro idxs
  induction idxs with
  | nil => intro i l h; simp [Celo.initNodesLoop] at h
  | cons j tl ih =>
    intro i l h
    unfold Celo.initNodesLoop at h
    cases h1 : ops.init j with
    | error e => rw [h1] at h; simp at h
    | ok u0 =>
      rw [h1] at h
      cases h2 : ops.enodeURL j with
      | error e => rw [h2] at h; simp at h
      | ok u =>
        rw [h2] at h
        rcases h3 : Celo.initNodesLoop ops tl with ⟨r1, evs1⟩
        rw [h3] at h
        have hevs1 : Celo.Event.pushPeers i l ∈ evs1 → False := by
          intro hm
          refine ih i l ?_
          rw [h3]
          exact hm
        cases r1 with
        | error e => simp at h; exact hevs1 h
        | ok urls1 => simp at h; exact hevs1 h

theorem mem_initTrace_nodeIdx :
    ∀ (idxs : List Nat) (ev : Celo.Event),
      ev ∈ Celo.initTrace idxs → ev.nodeIdx ∈ idxs := by
  intro idxs
  induction idxs with
  | nil => intro ev h; simp [Celo.initTrace] at h
  | cons i tl ih =>
    intro ev h
    simp only [Celo.initTrace, List.mem_cons] at h
    rcases h with h | h | h
    · subst h; simp [Celo.Event.nodeIdx]
    · subst h; simp [Celo.Event.nodeIdx]
    · exact List.mem_cons_of_mem i (ih ev h)

theorem setStaticLoop_ok_inv (ops : Celo.NodeOps) (urls : List String) :
    ∀ (idxs : List Nat) (evs : List Celo.Event),
      Celo.setStaticLoop ops urls idxs = (.ok (), evs) →
      evs = Celo.pushTrace urls idxs ∧
      ∀ i ∈ idxs, ops.setStaticNodes i (Celo.staticPeers urls i) = .ok () := by
  intro idxs
  induction idxs with
  | nil =>
    intro evs h
    simp only [Celo.setStaticLoop, Prod.mk.injEq] at h
    simp [← h.2, Celo.pushTrace]
  | cons i tl ih =>
    intro evs h
    unfold Celo.setStaticLoop at h
    cases h1 : ops.setStaticNodes i (Celo.staticPeers urls i) with
    | error e => rw [h1] at h; simp at h
    | ok u =>
      rw [h1] at h
      rcases h2 : Celo.setStaticLoop ops urls tl with ⟨r1, evs1⟩
      rw [h2] at h
      simp only [Prod.mk.injEq] at h
      obtain ⟨h3, h4⟩ := h
      rw [h3] at h2
      obtain ⟨he1, hcalls⟩ := ih evs1 h2
      refine ⟨?_, ?_⟩
      · rw [← h4, he1, Celo.pushTrace]
      · intro j hj
        rcases List.mem_cons.mp hj with hj1 | hj1
        · subst hj1; exact h1
        · exact hcalls j hj1

theorem setStaticLoop_fails (ops : Celo.NodeOps) (urls : List String)
    (k : Nat) (e : String)
    (hk : ops.setStaticNodes k (Celo.staticPeers urls k) = .error e) :
    ∀ (idxs rest : List Nat),
      (∀ i ∈ idxs, ops.setStaticNodes i (Celo.staticPeers urls i) = .ok ()) →
      Celo.setStaticLoop ops urls (idxs ++ k :: rest) =
        (.error e, Celo.pushTrace urls idxs ++
          [.pushPeers k (Celo.staticPeers urls k)]) := by
  intro idxs
  induction idxs with
  | nil =>
    intro rest _
    simp only [List.nil_append]
    unfold Celo.setStaticLoop
    rw [hk]
    rfl
  | cons i tl ih =>
    intro rest h
    have hi := h i (List.mem_cons_self i tl)
    simp only [List.cons_append]
    unfold Celo.setStaticLoop
    rw [hi, ih rest (fun j hj => h j (List.mem_cons_of_mem i hj))]
    simp [Celo.pushTrace]

theorem mem_pushTrace (urls : List String) :
    ∀ (idxs : List Nat) (i : Nat) (l : List String),
      Celo.Event.pushPeers i l ∈ Celo.pushTrace urls idxs ↔
        i ∈ idxs ∧ l = Celo.staticPeers urls i := by
  intro idxs
  induction idxs with
  | nil => intro i l; simp [Celo.pushTrace]
  | cons j tl ih =>
    intro i l
    simp only [Celo.pushTrace, List.mem_cons, ih,
      Celo.Event.pushPeers.injEq]
    constructor
    · rintro (⟨rfl, rfl⟩ | ⟨h1, rfl⟩)
      · exact ⟨Or.inl rfl, rfl⟩
      · exact ⟨Or.inr h1, rfl⟩
    · rintro ⟨rfl | h1, rfl⟩
      · exact Or.inl ⟨rfl, rfl⟩
      · exact Or.inr ⟨h1, rfl⟩

theorem staticPeers_length (urls : List String) (i : Nat)
    (h : i < urls.length) :
    (Celo.staticPeers urls i).length = urls.length - 1 := by
  unfold Celo.staticPeers
  rw [List.length_append, List.length_take, List.length_drop,
    min_eq_left (Nat.le_of_lt h)]
  omega

theorem not_mem_staticPeers (urls : List String) (i : Nat)
    (hi : i < urls.length) (hnd : urls.Nodup) :
    urls.get ⟨i, hi⟩ ∉ Celo.staticPeers urls i := by
  have hd : urls = urls.take i ++ urls.get ⟨i, hi⟩ :: urls.drop (i + 1) := by
    conv_lhs => rw [← List.take_append_drop i urls]
    rw [List.drop_eq_getElem_cons hi]
    rfl
  rw [hd, List.nodup_append] at hnd
  obtain ⟨h1, h2, h3⟩ := hnd
  rw [List.nodup_cons] at h2
  intro hmem
  unfold Celo.staticPeers at hmem
  rcases List.mem_append.mp hmem with hm | hm
  · exact h3 hm (List.mem_cons_self _ _)
  · exact h2.1 hm

/-! ## Helper lemmas about the loadbot pool and launch loops -/

theorem buildClientsAux_ok (factory : Nat → Except String Unit)
    (hok : ∀ i, factory i = .ok ()) (s k : Nat) :
    LoadBot.buildClientsAux factory s k = .ok (List.range' s k) := by
  induction k generalizing s with
  | zero => rfl
  | succ n ih =>
    rw [List.range'_succ]
    simp [LoadBot.buildClientsAux, hok s, ih (s + 1)]

theorem launchLoop_launched (w : LoadBot.BotWorld) (cc stagger : Int)
    (k : Nat) :
    ∀ (s : Nat) (l : List Int),
      LoadBot.launchLoop w cc stagger s k = .launched l →
      l = (List.range' s k).map (fun i : Nat => Int.tmod (i : Int) cc) := by
  induction k with
  | zero =>
    intro s l h
    simp only [LoadBot.launchLoop, LoadBot.LaunchResult.launched.injEq] at h
    simp [← h]
  | succ n ih =>
    intro s l h
    unfold LoadBot.launchLoop at h
    by_cases hcc : cc = 0
    · rw [if_pos hcc] at h; cases h
    · rw [if_neg hcc] at h
      cases hp : w.launchCtx s with
      | some e => rw [hp] at h; simp [LoadBot.waitFor] at h
      | none =>
        rw [hp] at h
        simp only [LoadBot.waitFor] at h
        cases hr : LoadBot.launchLoop w cc stagger (s + 1) n with
        | modZero => rw [hr] at h; cases h
        | err e => rw [hr] at h; cases h
        | launched rest =>
          rw [hr] at h
          simp only [LoadBot.LaunchResult.launched.injEq] at h
          rw [List.range'_succ, List.map_cons, ← ih (s + 1) rest hr, ← h]

/-! ## C6 -/

/-- C6: for every configured client count c ≥ 0 (and a factory that
succeeds), the client pool built by Start has size min(c, 100), hence is
nonzero whenever c > 0, regardless of the account count. -/
theorem client_pool_size (c : Int) (factory : Nat → Except String Unit)
    (hc : 0 ≤ c) (hok : ∀ i, factory i = .ok ()) :
    ∃ pool : List Nat,
      LoadBot.buildClients factory (LoadBot.cappedClientCount c).toNat = .ok pool ∧
      (pool.length : Int) = min c 100 ∧
      (0 < c → 0 < pool.length) := by
  have hlen : ((LoadBot.cappedClientCount c).toNat : Int) = min c 100 := by
    unfold LoadBot.cappedClientCount LoadBot.clientCap
    rw [min_def]
    split
    · split <;> omega
    · split <;> omega
  refine ⟨List.range' 0 (LoadBot.cappedClientCount c).toNat,
    buildClientsAux_ok factory hok 0 _, ?_, ?_⟩
  · rw [List.length_range']
    exact hlen
  · intro hpos
    rw [List.length_range']
    omega

/-- Witness for C6 at c = 3 with an always-succeeding factory. -/
theorem client_pool_size_witness :
    ∃ pool : List Nat,
      LoadBot.buildClients Witness.botW.clientFactory
          (LoadBot.cappedClientCount 3).toNat = .ok pool ∧
      (pool.length : Int) = min 3 100 ∧
      (0 < (3 : Int) → 0 < pool.length) :=
  client_pool_size 3 Witness.botW.clientFactory (by norm_num) (fun _ => rfl)

/-! ## C7 -/

/-- C7: when Start's launch loop completes, every account index i is
assigned the client at position i mod poolSize (Go's `%`, `Int.tmod`) — a
fixed deterministic modulo mapping; there is exactly one assigned client
per worker (one list entry per account), and each assignment is a valid
pool index (nonnegative and below the pool size). -/
theorem client_assignment_round_robin (w : LoadBot.BotWorld)
    (cc stagger : Int) (A : Nat) (asg : List Int) (hcc : 0 < cc)
    (h : LoadBot.launchLoop w cc stagger 0 A = .launched asg) :
    asg.length = A ∧
    ∀ i : Nat, ∀ hi : i < asg.length,
      asg.get ⟨i, hi⟩ = Int.tmod (i : Int) cc ∧
      0 ≤ asg.get ⟨i, hi⟩ ∧ asg.get ⟨i, hi⟩ < cc := by
  have hl := launchLoop_launched w cc stagger A 0 asg h
  subst hl
  constructor
  · rw [List.length_map, List.length_range']
  · intro i hi
    have hget : ((List.range' 0 A).map
        (fun i : Nat => Int.tmod (i : Int) cc)).get ⟨i, hi⟩ =
          Int.tmod (i : Int) cc := by
      rw [List.get_eq_getElem, List.getElem_map, List.getElem_range']
      norm_num
    refine ⟨hget, ?_, ?_⟩
    · rw [hget]
      exact Int.tmod_nonneg cc (Int.natCast_nonneg i)
    · rw [hget]
      exact Int.tmod_lt_of_pos _ hcc

/-- Witness for C7: three accounts over a two-client pool are assigned
clients 0, 1, 0. -/
theorem client_assignment_round_robin_witness :
    ([0, 1, 0] : List Int).length = 3 ∧
    ∀ i : Nat, ∀ hi : i < ([0, 1, 0] : List Int).length,
      ([0, 1, 0] : List Int).get ⟨i, hi⟩ = Int.tmod (i : Int) 2 ∧
      0 ≤ ([0, 1, 0] : List Int).get ⟨i, hi⟩ ∧
      ([0, 1, 0] : List Int).get ⟨i, hi⟩ < 2 :=
  client_assignment_round_robin Witness.botW 2 190000000 3 [0, 1, 0]
    (by norm_num) (by decide)

/-! ## C3 -/

/-- C3: Start derives the per-account delay as d =
int(float64(A*1000/TPS)*0.95) milliseconds — within rounding (strictly
less than 2 ms below, never above) of (A*1000/TPS)*0.95, stated
cross-multiplied over ℤ: 19*(A*1000) − 40*TPS < 20*TPS*d ≤ 19*(A*1000) —
and the worker-launch stagger as d / A (Duration division); in particular
A = 10 accounts at TPS = 5 give d = 1900 ms and stagger = 190 ms
(190000000 ns). -/
theorem start_pacing_parameters :
    (∀ (A : Nat) (tps : Int), 0 < A → 0 < tps →
        20 * tps * LoadBot.delayMillis A tps ≤ 19 * ((A : Int) * 1000) ∧
        19 * ((A : Int) * 1000) - 40 * tps < 20 * tps * LoadBot.delayMillis A tps ∧
        LoadBot.startDelayNs A tps = Int.tdiv (LoadBot.delayNs A tps) (A : Int)) ∧
    LoadBot.delayMillis 10 5 = 1900 ∧
    LoadBot.delayNs 10 5 = 1900000000 ∧
    LoadBot.startDelayNs 10 5 = 190000000 := by
  refine ⟨?_, by decide, by decide, by decide⟩
  intro A tps hA ht
  have hN : (0 : Int) ≤ (A : Int) * 1000 := by positivity
  have hb : LoadBot.delayBase A tps = ((A : Int) * 1000) / tps :=
    Int.tdiv_eq_ediv hN ht.le
  have hb0 : 0 ≤ ((A : Int) * 1000) / tps := Int.ediv_nonneg hN ht.le
  have hbm := Int.ediv_add_emod ((A : Int) * 1000) tps
  have hr0 : 0 ≤ ((A : Int) * 1000) % tps :=
    Int.emod_nonneg ((A : Int) * 1000) (ne_of_gt ht)
  have hr1 : ((A : Int) * 1000) % tps < tps :=
    Int.emod_lt_of_pos ((A : Int) * 1000) ht
  have hm : LoadBot.delayMillis A tps =
      (19 * (((A : Int) * 1000) / tps)) / 20 := by
    unfold LoadBot.delayMillis LoadBot.fudge
    rw [hb]
    exact Int.tdiv_eq_ediv (by positivity) (by norm_num)
  have hmm := Int.ediv_add_emod (19 * (((A : Int) * 1000) / tps)) 20
  have hs0 : 0 ≤ (19 * (((A : Int) * 1000) / tps)) % 20 :=
    Int.emod_nonneg _ (by norm_num)
  have hs1 : (19 * (((A : Int) * 1000) / tps)) % 20 < 20 :=
    Int.emod_lt_of_pos _ (by norm_num)
  rw [hm]
  refine ⟨?_, ?_, rfl⟩
  · nlinarith [mul_nonneg ht.le hs0, mul_nonneg ht.le hr0]
  · nlinarith [mul_le_mul_of_nonneg_left (by omega :
        (19 * (((A : Int) * 1000) / tps)) % 20 ≤ 19) ht.le]

/-- Witness for C3 at A = 10, TPS = 5. -/
theorem start_pacing_parameters_witness :
    20 * 5 * LoadBot.delayMillis 10 5 ≤ 19 * (((10 : Nat) : Int) * 1000) ∧
    19 * (((10 : Nat) : Int) * 1000) - 40 * 5 < 20 * 5 * LoadBot.delayMillis 10 5 ∧
    LoadBot.startDelayNs 10 5 = Int.tdiv (LoadBot.delayNs 10 5) ((10 : Nat) : Int) :=
  start_pacing_parameters.1 10 5 (by norm_num) (by norm_num)

/-! ## C10 -/

/-- C10 counterexample: with TransactionsPerSecond = 0 but a client
factory that fails, Start returns the factory error — it does not reach
the pacing-delay computation and does not panic at all, contradicting the
claim that TPS = 0 always panics with a division by zero. -/
theorem start_tps_zero_no_panic_counterexample :
    LoadBot.Start 5 0 1 Witness.badFactoryW = .err "dial failed" ∧
    LoadBot.Start 5 0 1 Witness.badFactoryW ≠ .panicDivZero ∧
    LoadBot.Start 5 0 1 Witness.badFactoryW ≠ .panicModZero ∧
    LoadBot.Start 5 0 1 Witness.badFactoryW ≠ .panicMakeSlice := by
  refine ⟨rfl, ?_, ?_, ?_⟩ <;> decide

/-- C10 (amended): provided the client-pool construction completes (every
factory call succeeds; with a nonnegative configured count), Start is not
total: TPS = 0 panics with an integer division by zero computing the
pacing delay; an empty account set (with TPS ≠ 0) panics with an integer
division by zero computing the launch stagger; and a capped client count
of 0 with a non-empty account set (and TPS ≠ 0) panics with an integer
modulo by zero at client assignment — in all three cases before any
worker error is returned. -/
theorem start_panics_on_degenerate_config :
    (∀ (A : Nat) (c : Int) (w : LoadBot.BotWorld), 0 ≤ c →
        (∀ i, w.clientFactory i = .ok ()) →
        LoadBot.Start A 0 c w = .panicDivZero) ∧
    (∀ (tps c : Int) (w : LoadBot.BotWorld), tps ≠ 0 → 0 ≤ c →
        (∀ i, w.clientFactory i = .ok ()) →
        LoadBot.Start 0 tps c w = .panicDivZero) ∧
    (∀ (A : Nat) (tps : Int) (w : LoadBot.BotWorld), A ≠ 0 → tps ≠ 0 →
        LoadBot.Start A tps 0 w = .panicModZero) := by
  have hcap : ∀ c : Int, 0 ≤ c → ¬ LoadBot.cappedClientCount c < 0 := by
    intro c hc
    unfold LoadBot.cappedClientCount LoadBot.clientCap
    split <;> omega
  refine ⟨?_, ?_, ?_⟩
  · intro A c w hc hok
    unfold LoadBot.Start
    rw [if_neg (hcap c hc), LoadBot.buildClients,
      buildClientsAux_ok w.clientFactory hok]
    simp
  · intro tps c w htps hc hok
    unfold LoadBot.Start
    rw [if_neg (hcap c hc), LoadBot.buildClients,
      buildClientsAux_ok w.clientFactory hok]
    simp [htps]
  · intro A tps w hA htps
    obtain ⟨k, rfl⟩ := Nat.exists_eq_succ_of_ne_zero hA
    unfold LoadBot.Start
    have h0 : LoadBot.cappedClientCount 0 = 0 := rfl
    rw [h0]
    simp [LoadBot.buildClients, LoadBot.buildClientsAux, htps,
      LoadBot.launchLoop]

/-- Witness for C10's amended theorem: four accounts, TPS = 7, configured
client count 0 — Start panics with modulo by zero at client assignment. -/
theorem start_panics_on_degenerate_config_witness :
    LoadBot.Start 4 7 0 Witness.botW = .panicModZero :=
  start_panics_on_degenerate_config.2.2 4 7 Witness.botW
    (by norm_num) (by norm_num)

/-! ## C8 -/

/-- C8: in the worker loop the next scheduled send time is the recorded
send time plus the per-account delay (`nextSendTime`); when, after
confirmation, the current time is already strictly past it, the worker
loops immediately with zero additional sleep (the iteration steps straight
to the next one, consulting neither the context nor the timer); otherwise
it sleeps until the scheduled time — the effective sleep is never
negative (time.After fires immediately on nonpositive durations, no
panic) and equals sched − now when now ≤ sched — waking early with the
context's error on cancellation. -/
theorem worker_pacing_no_negative_sleep :
    (∀ (w : LoadBot.RunWorld) (d : Int) (fuel iter : Nat),
        w.sendRes iter = .ok () → w.mineRes iter = .ok () →
        w.checkNow iter > LoadBot.nextSendTime (w.sentTime iter) d →
        LoadBot.runBot w d (fuel + 1) iter = LoadBot.runBot w d fuel (iter + 1)) ∧
    (∀ (w : LoadBot.RunWorld) (d : Int) (fuel iter : Nat),
        w.sendRes iter = .ok () → w.mineRes iter = .ok () →
        ¬ w.checkNow iter > LoadBot.nextSendTime (w.sentTime iter) d →
        w.paceCtx iter = none →
        LoadBot.runBot w d (fuel + 1) iter = LoadBot.runBot w d fuel (iter + 1)) ∧
    (∀ (w : LoadBot.RunWorld) (d : Int) (fuel iter : Nat) (e : String),
        w.sendRes iter = .ok () → w.mineRes iter = .ok () →
        ¬ w.checkNow iter > LoadBot.nextSendTime (w.sentTime iter) d →
        w.paceCtx iter = some e →
        LoadBot.runBot w d (fuel + 1) iter = some (.error e)) ∧
    (∀ d : Int, 0 ≤ LoadBot.effectiveSleep d) ∧
    (∀ now sched : Int, now ≤ sched →
        LoadBot.effectiveSleep (LoadBot.timeUntil now sched) = sched - now) := by
  refine ⟨?_, ?_, ?_, ?_, ?_⟩
  · intro w d fuel iter hs hm hc
    unfold LoadBot.runBot
    rw [hs, hm, if_pos hc]
    cases fuel <;> rfl
  · intro w d fuel iter hs hm hc hp
    unfold LoadBot.runBot
    rw [hs, hm, if_neg hc, hp]
    cases fuel <;> rfl
  · intro w d fuel iter e hs hm hc hp
    unfold LoadBot.runBot
    rw [hs, hm, if_neg hc, hp]
    rfl
  · intro d
    exact le_max_right d 0
  · intro now sched h
    unfold LoadBot.effectiveSleep LoadBot.timeUntil
    exact max_eq_left (by omega)

/-- Witness for C8: a worker whose confirmation latency exceeded the
budget (now = 100, schedule = 50) loops immediately. -/
theorem worker_pacing_no_negative_sleep_witness :
    LoadBot.runBot Witness.runW 50 1 0 = LoadBot.runBot Witness.runW 50 0 1 :=
  worker_pacing_no_negative_sleep.1 Witness.runW 50 0 0 rfl rfl (by decide)

/-! ## C1 -/

/-- C1: for every node count n ≥ 2, if Cluster.Init succeeds then every
node's enode URL was fetched, and the static peer list pushed to node i is
exactly the other n−1 nodes' URLs (`staticPeers urls i`, i.e. the
collected URL list with entry i removed): it has exactly n−1 entries and —
since distinct nodes have distinct identifiers (hypothesis `hinj`,
modelled from the spec as node.go is external) — never contains node i's
own URL. -/
theorem cluster_init_full_mesh (ops : Celo.NodeOps) (n : Nat) (_hn : 2 ≤ n)
    (hinj : ∀ i, i < n → ∀ j, j < n →
        Celo.enodeOf ops i = Celo.enodeOf ops j → i = j)
    (hok : (Celo.clusterInit ops n).1 = .ok ()) :
    ∃ urls : List String,
      urls.length = n ∧
      (∀ j, j < n → ops.enodeURL j = .ok (Celo.enodeOf ops j) ∧
          urls[j]? = some (Celo.enodeOf ops j)) ∧
      (∀ i, i < n → Celo.Event.pushPeers i (Celo.staticPeers urls i) ∈
          (Celo.clusterInit ops n).2) ∧
      (∀ i, ∀ l : List String,
          Celo.Event.pushPeers i l ∈ (Celo.clusterInit ops n).2 →
          l = Celo.staticPeers urls i ∧ l.length = n - 1 ∧
            Celo.enodeOf ops i ∉ l) := by
  rcases h1 : Celo.initNodesLoop ops (List.range n) with ⟨r1, evs1⟩
  cases r1 with
  | error e =>
    exfalso
    unfold Celo.clusterInit at hok
    rw [h1] at hok
    simp at hok
  | ok urls =>
    obtain ⟨hurls, hevs1, hcalls⟩ :=
      initNodesLoop_ok_inv ops (List.range n) urls evs1 h1
    subst hurls
    rcases h2 : Celo.setStaticLoop ops ((List.range n).map (Celo.enodeOf ops))
        (List.range n) with ⟨r2, evs2⟩
    have hr2 : r2 = .ok () := by
      simp only [Celo.clusterInit, h1, h2] at hok
      exact hok
    rw [hr2] at h2
    obtain ⟨hevs2, _⟩ := setStaticLoop_ok_inv ops _ (List.range n) evs2 h2
    have htrace : (Celo.clusterInit ops n).2 = evs1 ++ evs2 := by
      simp only [Celo.clusterInit, h1, h2]
    have hlen : ((List.range n).map (Celo.enodeOf ops)).length = n := by
      simp
    have hnodup : ((List.range n).map (Celo.enodeOf ops)).Nodup := by
      refine (List.nodup_range n).map_on ?_
      intro x hx y hy hxy
      exact hinj x (List.mem_range.mp hx) y (List.mem_range.mp hy) hxy
    have hget : ∀ i, i < n → ∀ hi : i < ((List.range n).map
        (Celo.enodeOf ops)).length,
        ((List.range n).map (Celo.enodeOf ops)).get ⟨i, hi⟩ =
          Celo.enodeOf ops i := by
      intro i hi hi'
      rw [List.get_eq_getElem, List.getElem_map, List.getElem_range]
    refine ⟨(List.range n).map (Celo.enodeOf ops), hlen, ?_, ?_, ?_⟩
    · intro j hj
      refine ⟨(hcalls j (List.mem_range.mpr hj)).2, ?_⟩
      have hj' : j < ((List.range n).map (Celo.enodeOf ops)).length := by
        rw [hlen]; exact hj
      rw [List.getElem?_eq_getElem hj', List.getElem_map, List.getElem_range]
    · intro i hi
      rw [htrace, hevs2]
      exact List.mem_append_right _
        ((mem_pushTrace _ (List.range n) i _).mpr
          ⟨List.mem_range.mpr hi, rfl⟩)
    · intro i l hmem
      rw [htrace, hevs1, hevs2] at hmem
      rcases List.mem_append.mp hmem with hm | hm
      · exact absurd hm (pushPeers_not_mem_initTrace (List.range n) i l)
      · obtain ⟨hir, hl⟩ := (mem_pushTrace _ (List.range n) i l).mp hm
        have hi : i < n := List.mem_range.mp hir
        have hi' : i < ((List.range n).map (Celo.enodeOf ops)).length := by
          rw [hlen]; exact hi
        refine ⟨hl, ?_, ?_⟩
        · rw [hl, staticPeers_length _ i hi', hlen]
        · rw [hl, ← hget i hi hi']
          exact not_mem_staticPeers _ i hi' hnodup

/-- Witness for C1: two nodes with distinct URLs, all operations
succeeding. -/
theorem cluster_init_full_mesh_witness :
    ∃ urls : List String,
      urls.length = 2 ∧
      (∀ j, j < 2 → Witness.opsW.enodeURL j =
          .ok (Celo.enodeOf Witness.opsW j) ∧
          urls[j]? = some (Celo.enodeOf Witness.opsW j)) ∧
      (∀ i, i < 2 → Celo.Event.pushPeers i (Celo.staticPeers urls i) ∈
          (Celo.clusterInit Witness.opsW 2).2) ∧
      (∀ i, ∀ l : List String,
          Celo.Event.pushPeers i l ∈ (Celo.clusterInit Witness.opsW 2).2 →
          l = Celo.staticPeers urls i ∧ l.length = 2 - 1 ∧
            Celo.enodeOf Witness.opsW i ∉ l) :=
  cluster_init_full_mesh Witness.opsW 2 (by norm_num) (by decide) (by decide)

/-! ## C2 -/

/-- C2: Cluster.Init initializes nodes strictly in index order and is
fail-fast.  (a) If nodes 0..k−1 bootstrap and fetch successfully and node
k's bootstrap fails with e, Init performs exactly the calls init 0, fetch
0, …, init k (in that order, as the trace equality shows), returns e,
touches no node beyond k, and performs no peer push (no rollback events
exist at all).  (b) The same when node k's identifier fetch fails, with
the trace ending init k, fetch k.  (c) Any peer push implies the whole
init/fetch phase succeeded with all n identifiers collected.  (d) If the
init phase succeeded and pushes 0..k−1 succeed but push k fails with e,
Init returns e and the push calls performed are exactly 0..k. -/
theorem cluster_init_fail_fast :
    (∀ (ops : Celo.NodeOps) (n k : Nat) (e : String), k < n →
        (∀ j, j < k → ops.init j = .ok () ∧ ∃ u, ops.enodeURL j = .ok u) →
        ops.init k = .error e →
        Celo.clusterInit ops n =
          (.error e, Celo.initTrace (List.range k) ++ [.initNode k]) ∧
        (∀ ev ∈ (Celo.clusterInit ops n).2, ev.nodeIdx ≤ k) ∧
        (∀ i, ∀ l : List String,
            Celo.Event.pushPeers i l ∉ (Celo.clusterInit ops n).2)) ∧
    (∀ (ops : Celo.NodeOps) (n k : Nat) (e : String), k < n →
        (∀ j, j < k → ops.init j = .ok () ∧ ∃ u, ops.enodeURL j = .ok u) →
        ops.init k = .ok () → ops.enodeURL k = .error e →
        Celo.clusterInit ops n =
          (.error e, Celo.initTrace (List.range k) ++
            [.initNode k, .fetchEnode k]) ∧
        (∀ ev ∈ (Celo.clusterInit ops n).2, ev.nodeIdx ≤ k) ∧
        (∀ i, ∀ l : List String,
            Celo.Event.pushPeers i l ∉ (Celo.clusterInit ops n).2)) ∧
    (∀ (ops : Celo.NodeOps) (n i : Nat) (l : List String),
        Celo.Event.pushPeers i l ∈ (Celo.clusterInit ops n).2 →
        ∃ urls : List String,
          Celo.initNodesLoop ops (List.range n) =
            (.ok urls, Celo.initTrace (List.range n)) ∧ urls.length = n) ∧
    (∀ (ops : Celo.NodeOps) (n k : Nat) (e : String) (urls : List String)
        (evs : List Celo.Event), k < n →
        Celo.initNodesLoop ops (List.range n) = (.ok urls, evs) →
        (∀ j, j < k →
            ops.setStaticNodes j (Celo.staticPeers urls j) = .ok ()) →
        ops.setStaticNodes k (Celo.staticPeers urls k) = .error e →
        Celo.clusterInit ops n =
          (.error e, evs ++ (Celo.pushTrace urls (List.range k) ++
            [.pushPeers k (Celo.staticPeers urls k)]))) := by
  refine ⟨?_, ?_, ?_, ?_⟩
  · intro ops n k e hk hpre hke
    obtain ⟨rest, hrange⟩ := range_decomp k n hk
    have hloop : Celo.initNodesLoop ops (List.range n) =
        (.error e, Celo.initTrace (List.range k) ++ [.initNode k]) := by
      rw [hrange]
      exact initNodesLoop_init_fails ops k e hke (List.range k) rest
        (fun j hj => hpre j (List.mem_range.mp hj))
    have hmain : Celo.clusterInit ops n =
        (.error e, Celo.initTrace (List.range k) ++ [.initNode k]) := by
      unfold Celo.clusterInit
      rw [hloop]
    refine ⟨hmain, ?_, ?_⟩
    · intro ev hev
      rw [hmain] at hev
      rcases List.mem_append.mp hev with hm | hm
      · exact Nat.le_of_lt
          (List.mem_range.mp (mem_initTrace_nodeIdx (List.range k) ev hm))
      · rcases List.mem_singleton.mp hm with rfl
        exact Nat.le_refl k
    · intro i l hmem
      rw [hmain] at hmem
      rcases List.mem_append.mp hmem with hm | hm
      · exact pushPeers_not_mem_initTrace (List.range k) i l hm
      · cases List.mem_singleton.mp hm
  · intro ops n k e hk hpre hk1 hk2
    obtain ⟨rest, hrange⟩ := range_decomp k n hk
    have hloop : Celo.initNodesLoop ops (List.range n) =
        (.error e, Celo.initTrace (List.range k) ++
          [.initNode k, .fetchEnode k]) := by
      rw [hrange]
      exact initNodesLoop_enode_fails ops k e hk1 hk2 (List.range k) rest
        (fun j hj => hpre j (List.mem_range.mp hj))
    have hmain : Celo.clusterInit ops n =
        (.error e, Celo.initTrace (List.range k) ++
          [.initNode k, .fetchEnode k]) := by
      unfold Celo.clusterInit
      rw [hloop]
    refine ⟨hmain, ?_, ?_⟩
    · intro ev hev
      rw [hmain] at hev
      rcases List.mem_append.mp hev with hm | hm
      · exact Nat.le_of_lt
          (List.mem_range.mp (mem_initTrace_nodeIdx (List.range k) ev hm))
      · rcases List.mem_cons.mp hm with rfl | hm2
        · exact Nat.le_refl k
        · rcases List.mem_singleton.mp hm2 with rfl
          exact Nat.le_refl k
    · intro i l hmem
      rw [hmain] at hmem
      rcases List.mem_append.mp hmem with hm | hm
      · exact pushPeers_not_mem_initTrace (List.range k) i l hm
      · rcases List.mem_cons.mp hm with hm2 | hm2
        · cases hm2
        · cases List.mem_singleton.mp hm2
  · intro ops n i l hmem
    rcases h1 : Celo.initNodesLoop ops (List.range n) with ⟨r1, evs1⟩
    cases r1 with
    | error e =>
      exfalso
      have hm : Celo.Event.pushPeers i l ∈ evs1 := by
        unfold Celo.clusterInit at hmem
        rw [h1] at hmem
        exact hmem
      have hno := pushPeers_not_mem_initNodesLoop ops (List.range n) i l
      rw [h1] at hno
      exact hno hm
    | ok urls =>
      obtain ⟨hurls, hevs1, _⟩ :=
        initNodesLoop_ok_inv ops (List.range n) urls evs1 h1
      refine ⟨urls, ?_, ?_⟩
      · rw [hevs1]
      · rw [hurls]; simp
  · intro ops n k e urls evs hk hloop hpre hke
    obtain ⟨rest, hrange⟩ := range_decomp k n hk
    have hpush : Celo.setStaticLoop ops urls (List.range n) =
        (.error e, Celo.pushTrace urls (List.range k) ++
          [.pushPeers k (Celo.staticPeers urls k)]) := by
      rw [hrange]
      exact setStaticLoop_fails ops urls k e hke (List.range k) rest
        (fun j hj => hpre j (List.mem_range.mp hj))
    simp only [Celo.clusterInit, hloop, hpush]

/-- Witness for C2: part (a) at a three-node cluster whose node 1 fails to
bootstrap, and part (d) at a two-node cluster whose node 1 rejects its
peer push. -/
theorem cluster_init_fail_fast_witness :
    (Celo.clusterInit Witness.opsF 3 =
        (.error "boom", Celo.initTrace (List.range 1) ++ [.initNode 1]) ∧
      (∀ ev ∈ (Celo.clusterInit Witness.opsF 3).2, ev.nodeIdx ≤ 1) ∧
      (∀ i, ∀ l : List String,
          Celo.Event.pushPeers i l ∉ (Celo.clusterInit Witness.opsF 3).2)) ∧
    Celo.clusterInit Witness.opsP 2 =
      (.error "peering down",
        [Celo.Event.initNode 0, .fetchEnode 0, .initNode 1, .fetchEnode 1] ++
          (Celo.pushTrace ["a", "b"] (List.range 1) ++
            [.pushPeers 1 (Celo.staticPeers ["a", "b"] 1)])) :=
  ⟨cluster_init_fail_fast.1 Witness.opsF 3 1 "boom" (by norm_num)
      (by
        intro j hj
        have hj0 : j = 0 := by omega
        subst hj0
        exact ⟨rfl, "u", rfl⟩)
      rfl,
   cluster_init_fail_fast.2.2.2 Witness.opsP 2 1 "peering down" ["a", "b"]
      [Celo.Event.initNode 0, .fetchEnode 0, .initNode 1, .fetchEnode 1]
      (by norm_num) (by decide)
      (by
        intro j hj
        have hj0 : j = 0 := by omega
        subst hj0
        rfl)
      rfl⟩
